import Mathlib

/-!
Verification development for the neuroevolution core of `neat_experiements`:
a feedforward neural network (`src/neural_network.rs`) with prediction,
crossover and mutation.  Scalars (`f64`) are modelled as real numbers; the
fatal assertions of the Rust code are embedded as `Option` failures (`none`);
the random number generator is embedded as explicit streams of real and
boolean draws threaded through the stateful operations.

The neuron type (`neural_network_neuron.rs`) is referenced by the network code
but its source file is not part of the sources here, so the neuron operations
are modelled from the specification; each such definition says so in its doc
comment.
-/

/-- The closed set of activation functions, from the source
(`NeuralNetworkActivationFun` with variants `TanH` and `Identity`). -/
inductive NeuralNetworkActivationFun where
  | TanH
  | Identity
deriving DecidableEq

/-- Semantics of an activation function: `TanH` is the bounded hyperbolic
tangent, `Identity` the pass-through. -/
noncomputable def NeuralNetworkActivationFun.apply :
    NeuralNetworkActivationFun → ℝ → ℝ
  | .TanH, x => Real.tanh x
  | .Identity, x => x

/-- Modelled from the spec: the random source used by initialization, crossover
and mutation (the Rust code's RNG); an infinite stream of real draws, an
infinite stream of boolean draws, and a cursor advanced by each draw. -/
structure Rng where
  reals : ℕ → ℝ
  bools : ℕ → Bool
  pos : ℕ

/-- Draw one real value and advance the cursor. -/
def Rng.nextReal (g : Rng) : ℝ × Rng :=
  (g.reals g.pos, { g with pos := g.pos + 1 })

/-- Draw one boolean value and advance the cursor. -/
def Rng.nextBool (g : Rng) : Bool × Rng :=
  (g.bools g.pos, { g with pos := g.pos + 1 })

/-- Modelled from the spec: `NeuralNetworkNeuron` (its source file
`neural_network_neuron.rs` is not among the sources; only its caller
`neural_network.rs` is): an ordered sequence of weights, a bias, and an
activation function fixed at construction. -/
structure NeuralNetworkNeuron where
  weights : List ℝ
  bias : ℝ
  activation : NeuralNetworkActivationFun

/-- The weighted sum a neuron computes before activation:
bias plus the sum of pointwise products of weights and inputs. -/
noncomputable def weightedSum (n : NeuralNetworkNeuron) (inputs : List ℝ) : ℝ :=
  n.bias + (List.zipWith (fun w x => w * x) n.weights inputs).sum

/-- Modelled from the spec: `NeuralNetworkNeuron::activate` computes
`bias + Σ(weights[i] * inputs[i])` and applies the activation function; it
fails (fatal assertion, embedded as `none`) when the input length differs from
the weight count. -/
noncomputable def NeuralNetworkNeuron.activate (n : NeuralNetworkNeuron)
    (inputs : List ℝ) : Option ℝ :=
  if inputs.length = n.weights.length then
    some (n.activation.apply (weightedSum n inputs))
  else none

/-- Draw `k` real values in sequence. -/
def drawReals : ℕ → Rng → List ℝ × Rng
  | 0, g => ([], g)
  | k + 1, g =>
      let p := g.nextReal
      let q := drawReals k p.2
      (p.1 :: q.1, q.2)

/-- Modelled from the spec: `NeuralNetworkNeuron::new(input_count, activation)`
produces a neuron with `input_count` randomly drawn weights, a randomly drawn
bias, and the given activation. -/
def NeuralNetworkNeuron.new (input_count : ℕ)
    (activation : NeuralNetworkActivationFun) (g : Rng) :
    NeuralNetworkNeuron × Rng :=
  let p := drawReals input_count g
  let q := p.2.nextReal
  ({ weights := p.1, bias := q.1, activation := activation }, q.2)

/-- Modelled from the spec: gene-by-gene recombination of two weight vectors;
for each position an independent boolean draw selects the parent the value
comes from. -/
def crossGenes : List ℝ → List ℝ → Rng → List ℝ × Rng
  | a :: as, b :: bs, g =>
      let c := g.nextBool
      let q := crossGenes as bs c.2
      ((if c.1 then a else b) :: q.1, q.2)
  | _, _, g => ([], g)

/-- Modelled from the spec: `NeuralNetworkNeuron::crossover` selects,
independently for each weight position and for the bias, the parent the gene
comes from; the child keeps the parents' (necessarily identical) activation
kind; neither parent is mutated. -/
def NeuralNetworkNeuron.crossover (self other : NeuralNetworkNeuron)
    (g : Rng) : NeuralNetworkNeuron × Rng :=
  let p := crossGenes self.weights other.weights g
  let c := p.2.nextBool
  ({ weights := p.1, bias := if c.1 then self.bias else other.bias,
     activation := self.activation }, c.2)

/-- Modelled from the spec: per-gene mutation; a boolean draw decides whether
the gene is replaced by a freshly drawn value. -/
def mutateGene (v : ℝ) (g : Rng) : ℝ × Rng :=
  let c := g.nextBool
  let x := c.2.nextReal
  (if c.1 then x.1 else v, x.2)

/-- Mutate each value of a list of genes in order. -/
def mutateGenes : List ℝ → Rng → List ℝ × Rng
  | [], g => ([], g)
  | v :: vs, g =>
      let p := mutateGene v g
      let q := mutateGenes vs p.2
      (p.1 :: q.1, q.2)

/-- Modelled from the spec: `NeuralNetworkNeuron::mutate` perturbs each weight
and the bias independently; the weight count and the activation never
change. -/
def NeuralNetworkNeuron.mutate (n : NeuralNetworkNeuron) (g : Rng) :
    NeuralNetworkNeuron × Rng :=
  let p := mutateGenes n.weights g
  let q := mutateGene n.bias p.2
  ({ weights := p.1, bias := q.1, activation := n.activation }, q.2)

/-- The network, from the source: an input count, an output count, and a list
of layers, each a list of neurons. -/
structure NeuralNetwork where
  input_count : ℕ
  output_count : ℕ
  layers : List (List NeuralNetworkNeuron)

/-- One layer of the prediction loop: activate each neuron of the layer on the
previous activations, collecting the outputs in order; any neuron failure
aborts (the Rust assertion inside `activate` is fatal). -/
noncomputable def layerActivations :
    List NeuralNetworkNeuron → List ℝ → Option (List ℝ)
  | [], _ => some []
  | nr :: rest, acts =>
      match nr.activate acts, layerActivations rest acts with
      | some y, some ys => some (y :: ys)
      | _, _ => none

/-- The layer loop of `predict`: fold the activations through the layers in
order, each layer consuming the previous layer's full output vector. -/
noncomputable def layersActivations :
    List (List NeuralNetworkNeuron) → List ℝ → Option (List ℝ)
  | [], acts => some acts
  | layer :: rest, acts =>
      match layerActivations layer acts with
      | some next => layersActivations rest next
      | none => none

/-- `NeuralNetwork::predict` from the source: asserts that the input length
equals `input_count` (embedded as `none` on failure), then evaluates the
layers in order starting from the input vector. -/
noncomputable def NeuralNetwork.predict (net : NeuralNetwork)
    (inputs : List ℝ) : Option (List ℝ) :=
  if inputs.length = net.input_count then
    layersActivations net.layers inputs
  else none

/-- The structural-compatibility check of `NeuralNetwork::crossover` from the
source: equal `input_count`, equal `output_count`, equal number of layers, and
equal neuron count in each layer (and nothing else). -/
def NeuralNetwork.compatibleB (a b : NeuralNetwork) : Bool :=
  (a.input_count == b.input_count) &&
  (a.output_count == b.output_count) &&
  (a.layers.length == b.layers.length) &&
  (List.zip a.layers b.layers).all fun p => p.1.length == p.2.length

/-- Position-by-position crossover of two layers. -/
def crossNeurons :
    List NeuralNetworkNeuron → List NeuralNetworkNeuron → Rng →
    List NeuralNetworkNeuron × Rng
  | a :: as, b :: bs, g =>
      let p := a.crossover b g
      let q := crossNeurons as bs p.2
      (p.1 :: q.1, q.2)
  | _, _, g => ([], g)

/-- Layer-by-layer crossover of two layer stacks. -/
def crossLayers :
    List (List NeuralNetworkNeuron) → List (List NeuralNetworkNeuron) → Rng →
    List (List NeuralNetworkNeuron) × Rng
  | a :: as, b :: bs, g =>
      let p := crossNeurons a b g
      let q := crossLayers as bs p.2
      (p.1 :: q.1, q.2)
  | _, _, g => ([], g)

/-- `NeuralNetwork::crossover` from the source: asserts the four
structural-compatibility conditions before any recombination (embedded as
`none` on failure), then builds a new network with the same `input_count` and
`output_count` whose neurons are position-by-position neuron crossovers of the
parents. -/
def NeuralNetwork.crossover (self other : NeuralNetwork) (g : Rng) :
    Option (NeuralNetwork × Rng) :=
  if self.compatibleB other then
    let p := crossLayers self.layers other.layers g
    some ({ input_count := self.input_count, output_count := self.output_count,
            layers := p.1 }, p.2)
  else none

/-- Mutate each neuron of a layer in order. -/
def mutateNeurons : List NeuralNetworkNeuron → Rng →
    List NeuralNetworkNeuron × Rng
  | [], g => ([], g)
  | nr :: rest, g =>
      let p := nr.mutate g
      let q := mutateNeurons rest p.2
      (p.1 :: q.1, q.2)

/-- Mutate each layer in order. -/
def mutateLayers : List (List NeuralNetworkNeuron) → Rng →
    List (List NeuralNetworkNeuron) × Rng
  | [], g => ([], g)
  | l :: ls, g =>
      let p := mutateNeurons l g
      let q := mutateLayers ls p.2
      (p.1 :: q.1, q.2)

/-- `NeuralNetwork::mutate` from the source: mutates every neuron of every
layer in place (embedded as returning the updated network). -/
def NeuralNetwork.mutate (net : NeuralNetwork) (g : Rng) :
    NeuralNetwork × Rng :=
  let p := mutateLayers net.layers g
  ({ net with layers := p.1 }, p.2)

/-- The hidden-layer construction loop of `NeuralNetwork::new` from the
source: for each entry of `layer_sizes` construct one TanH neuron fed by the
previous width and clone it across the layer (Rust's `vec![neuron; size]`);
returns the hidden layers, the final previous-layer width, and the advanced
random source. -/
def buildHiddenLayers (prev : ℕ) :
    List ℕ → Rng → List (List NeuralNetworkNeuron) × ℕ × Rng
  | [], g => ([], prev, g)
  | size :: rest, g =>
      let p := NeuralNetworkNeuron.new prev .TanH g
      let q := buildHiddenLayers size rest p.2
      (List.replicate size p.1 :: q.1, q.2.1, q.2.2)

/-- `NeuralNetwork::new` from the source: the hidden layers built from
`layer_sizes`, followed by exactly one output layer of `output_count` clones
of one Identity neuron fed by the final hidden width. -/
def NeuralNetwork.new (input_count output_count : ℕ) (layer_sizes : List ℕ)
    (g : Rng) : NeuralNetwork × Rng :=
  let h := buildHiddenLayers input_count layer_sizes g
  let o := NeuralNetworkNeuron.new h.2.1 .Identity h.2.2
  ({ input_count := input_count, output_count := output_count,
     layers := h.1 ++ [List.replicate output_count o.1] }, o.2)

/-- The per-layer neuron counts of a network. -/
def layerSizes (net : NeuralNetwork) : List ℕ :=
  net.layers.map List.length

/-- Two networks have the same shape: equal input count, output count, and
per-layer neuron counts. -/
def sameShape (a b : NeuralNetwork) : Prop :=
  a.input_count = b.input_count ∧ a.output_count = b.output_count ∧
    layerSizes a = layerSizes b

/-- The structural skeleton of a neuron: its weight count and activation. -/
def neuronShape (n : NeuralNetworkNeuron) : ℕ × NeuralNetworkActivationFun :=
  (n.weights.length, n.activation)

/-- The structural skeleton of a network: per layer, each neuron's shape. -/
def networkShape (net : NeuralNetwork) :
    List (List (ℕ × NeuralNetworkActivationFun)) :=
  net.layers.map (List.map neuronShape)

/-- The layer skeleton the spec describes for `new`, stated from the spec's
words for comparison with the source-derived `NeuralNetwork.new`: one layer
per hidden size, each neuron bounded (TanH) and fed by the previous width,
then one output layer of `output_count` identity neurons. -/
def specShape (prev output_count : ℕ) :
    List ℕ → List (List (ℕ × NeuralNetworkActivationFun))
  | [] => [List.replicate output_count (prev, .Identity)]
  | size :: rest =>
      List.replicate size (prev, .TanH) :: specShape size output_count rest

/-- Well-formedness of a layer stack with respect to an incoming width: each
neuron of the first layer has exactly that many weights, and the rest of the
stack is well-formed with respect to the first layer's neuron count. -/
def chainOk : ℕ → List (List NeuralNetworkNeuron) → Prop
  | _, [] => True
  | w, layer :: rest =>
      (∀ n ∈ layer, n.weights.length = w) ∧ chainOk layer.length rest

/-- A concrete random source for evaluating the operations at concrete
inputs: every real draw is `0`, every boolean draw is `true`. -/
def rng0 : Rng :=
  { reals := fun _ => 0, bools := fun _ => true, pos := 0 }

/- Helper lemmas about the random draws and the shape of each operation's
result. -/

theorem drawReals_length (k : ℕ) : ∀ g : Rng, (drawReals k g).1.length = k := by
  induction k with
  | zero => intro g; rfl
  | succ k ih => intro g; simp [drawReals, ih]

theorem neuron_new_weights (k : ℕ) (act : NeuralNetworkActivationFun)
    (g : Rng) : ((NeuralNetworkNeuron.new k act g).1).weights.length = k := by
  simp [NeuralNetworkNeuron.new, drawReals_length]

theorem neuron_new_activation (k : ℕ) (act : NeuralNetworkActivationFun)
    (g : Rng) : ((NeuralNetworkNeuron.new k act g).1).activation = act := rfl

theorem crossGenes_length : ∀ (a b : List ℝ) (g : Rng),
    (crossGenes a b g).1.length = min a.length b.length
  | [], [], _ => by simp [crossGenes]
  | [], _ :: _, _ => by simp [crossGenes]
  | _ :: _, [], _ => by simp [crossGenes]
  | _ :: as, _ :: bs, g => by
      simp [crossGenes, crossGenes_length as bs]
      omega

theorem neuron_crossover_weights (a b : NeuralNetworkNeuron) (g : Rng) :
    ((a.crossover b g).1).weights.length = min a.weights.length b.weights.length := by
  simp [NeuralNetworkNeuron.crossover, crossGenes_length]

theorem neuron_crossover_activation (a b : NeuralNetworkNeuron) (g : Rng) :
    ((a.crossover b g).1).activation = a.activation := rfl

theorem mutateGenes_length : ∀ (vs : List ℝ) (g : Rng),
    (mutateGenes vs g).1.length = vs.length
  | [], _ => rfl
  | v :: vs, g => by simp [mutateGenes, mutateGenes_length vs]

theorem neuron_mutate_weights (n : NeuralNetworkNeuron) (g : Rng) :
    ((n.mutate g).1).weights.length = n.weights.length := by
  simp [NeuralNetworkNeuron.mutate, mutateGenes_length]

theorem neuron_mutate_activation (n : NeuralNetworkNeuron) (g : Rng) :
    ((n.mutate g).1).activation = n.activation := rfl

theorem crossNeurons_length : ∀ (a b : List NeuralNetworkNeuron) (g : Rng),
    (crossNeurons a b g).1.length = min a.length b.length
  | [], [], _ => by simp [crossNeurons]
  | [], _ :: _, _ => by simp [crossNeurons]
  | _ :: _, [], _ => by simp [crossNeurons]
  | _ :: as, _ :: bs, g => by
      simp [crossNeurons, crossNeurons_length as bs]
      omega

theorem crossLayers_sizes : ∀ (a b : List (List NeuralNetworkNeuron)) (g : Rng),
    a.map List.length = b.map List.length →
    (crossLayers a b g).1.map List.length = a.map List.length
  | [], [], _, _ => rfl
  | [], _ :: _, _, h => by simp at h
  | _ :: _, [], _, h => by simp at h
  | x :: xs, y :: ys, g, h => by
      simp only [List.map_cons, List.cons.injEq] at h
      simp [crossLayers, crossNeurons_length, h.1,
        crossLayers_sizes xs ys _ h.2]

theorem mutateNeurons_length : ∀ (l : List NeuralNetworkNeuron) (g : Rng),
    (mutateNeurons l g).1.length = l.length
  | [], _ => rfl
  | _ :: rest, g => by simp [mutateNeurons, mutateNeurons_length rest]

theorem mutateLayers_sizes : ∀ (ls : List (List NeuralNetworkNeuron)) (g : Rng),
    (mutateLayers ls g).1.map List.length = ls.map List.length
  | [], _ => rfl
  | l :: ls, g => by
      simp [mutateLayers, mutateNeurons_length, mutateLayers_sizes ls]

theorem zipAllLen_iff : ∀ a b : List (List NeuralNetworkNeuron),
    (a.length = b.length ∧
      ((List.zip a b).all fun p => p.1.length == p.2.length) = true) ↔
    a.map List.length = b.map List.length
  | [], [] => by simp
  | [], _ :: _ => by simp
  | _ :: _, [] => by simp
  | x :: xs, y :: ys => by
      have ih := zipAllLen_iff xs ys
      simp only [List.zip_cons_cons, List.all_cons, List.length_cons,
        List.map_cons, List.cons.injEq, Bool.and_eq_true, beq_iff_eq,
        Nat.add_right_cancel_iff] at *
      tauto

theorem compatibleB_iff (a b : NeuralNetwork) :
    a.compatibleB b = true ↔
      (a.input_count = b.input_count ∧ a.output_count = b.output_count ∧
        layerSizes a = layerSizes b) := by
  unfold NeuralNetwork.compatibleB layerSizes
  rw [Bool.and_eq_true, Bool.and_eq_true, Bool.and_eq_true]
  rw [beq_iff_eq, beq_iff_eq, beq_iff_eq]
  constructor
  · rintro ⟨⟨⟨h1, h2⟩, h3⟩, h4⟩
    exact ⟨h1, h2, (zipAllLen_iff a.layers b.layers).mp ⟨h3, h4⟩⟩
  · rintro ⟨h1, h2, h3⟩
    have := (zipAllLen_iff a.layers b.layers).mpr h3
    exact ⟨⟨⟨h1, h2⟩, this.1⟩, this.2⟩

theorem layerActivations_ok : ∀ (layer : List NeuralNetworkNeuron)
    (acts : List ℝ), (∀ n ∈ layer, n.weights.length = acts.length) →
    ∃ out, layerActivations layer acts = some out ∧ out.length = layer.length
  | [], _, _ => ⟨[], rfl, rfl⟩
  | nr :: rest, acts, h => by
      have h1 : nr.activate acts =
          some (nr.activation.apply (weightedSum nr acts)) := by
        simp [NeuralNetworkNeuron.activate, (h nr (by simp)).symm]
      obtain ⟨out, ho, hl⟩ :=
        layerActivations_ok rest acts (fun n hn => h n (by simp [hn]))
      exact ⟨nr.activation.apply (weightedSum nr acts) :: out,
        by simp [layerActivations, h1, ho], by simp [hl]⟩

theorem layersActivations_ok : ∀ (ls : List (List NeuralNetworkNeuron))
    (acts : List ℝ), chainOk acts.length ls →
    ∃ out, layersActivations ls acts = some out ∧
      out.length = List.foldl (fun _ l => l.length) acts.length ls
  | [], acts, _ => ⟨acts, rfl, rfl⟩
  | layer :: rest, acts, h => by
      obtain ⟨h1, h2⟩ := h
      obtain ⟨next, hn, hnl⟩ := layerActivations_ok layer acts h1
      obtain ⟨out, ho, hol⟩ := layersActivations_ok rest next (hnl ▸ h2)
      refine ⟨out, ?_, ?_⟩
      · simp [layersActivations, hn, ho]
      · simpa [hnl] using hol

theorem buildHidden_chainOk : ∀ (sizes : List ℕ) (prev : ℕ) (g : Rng)
    (rest : List (List NeuralNetworkNeuron)),
    chainOk (buildHiddenLayers prev sizes g).2.1 rest →
    chainOk prev ((buildHiddenLayers prev sizes g).1 ++ rest)
  | [], _, _, _, h => h
  | size :: tl, prev, g, rest, h => by
      simp only [buildHiddenLayers] at h ⊢
      refine ⟨?_, ?_⟩
      · intro n hn
        rw [List.eq_of_mem_replicate hn]
        exact neuron_new_weights prev .TanH g
      · rw [List.length_replicate]
        exact buildHidden_chainOk tl size _ rest h

theorem new_chainOk (ic oc : ℕ) (sizes : List ℕ) (g : Rng) :
    chainOk ic ((NeuralNetwork.new ic oc sizes g).1).layers := by
  unfold NeuralNetwork.new
  apply buildHidden_chainOk
  refine ⟨?_, trivial⟩
  intro n hn
  rw [List.eq_of_mem_replicate hn]
  exact neuron_new_weights _ .Identity _

theorem new_last_width (ic oc : ℕ) (sizes : List ℕ) (g : Rng) (d : ℕ) :
    List.foldl (fun _ l => l.length) d
      ((NeuralNetwork.new ic oc sizes g).1).layers = oc := by
  unfold NeuralNetwork.new
  simp

theorem buildHidden_specShape : ∀ (sizes : List ℕ) (prev oc : ℕ) (g : Rng),
    ((buildHiddenLayers prev sizes g).1.map (List.map neuronShape)) ++
      [List.replicate oc ((buildHiddenLayers prev sizes g).2.1, .Identity)] =
    specShape prev oc sizes
  | [], prev, oc, g => by simp [buildHiddenLayers, specShape]
  | size :: rest, prev, oc, g => by
      simp only [buildHiddenLayers, specShape, List.map_cons, List.cons_append,
        List.cons.injEq]
      refine ⟨?_, buildHidden_specShape rest size oc _⟩
      rw [List.map_replicate]
      simp [neuronShape, neuron_new_weights, neuron_new_activation]

theorem buildHidden_layers_replicate : ∀ (sizes : List ℕ) (prev : ℕ) (g : Rng)
    (l : List NeuralNetworkNeuron),
    l ∈ (buildHiddenLayers prev sizes g).1 →
    ∃ k nr, l = List.replicate k nr
  | [], _, _, _, h => by simp [buildHiddenLayers] at h
  | size :: rest, prev, g, l, h => by
      simp only [buildHiddenLayers, List.mem_cons] at h
      rcases h with h | h
      · exact ⟨size, _, h⟩
      · exact buildHidden_layers_replicate rest size _ l h

theorem tanh_lt_one_real (x : ℝ) : Real.tanh x < 1 := by
  rw [Real.tanh_eq_sinh_div_cosh]
  exact (div_lt_one (Real.cosh_pos x)).mpr (Real.sinh_lt_cosh x)

theorem neg_one_lt_tanh_real (x : ℝ) : -1 < Real.tanh x := by
  rw [Real.tanh_eq_sinh_div_cosh, lt_div_iff₀ (Real.cosh_pos x)]
  nlinarith [Real.cosh_add_sinh x, Real.exp_pos x]

/-- C1: for structurally compatible networks, crossover returns a network with
the identical input count, output count, number of layers and per-layer neuron
counts as the receiver, and mutation leaves all of those unchanged. -/
theorem crossover_mutate_preserve_shape (N M : NeuralNetwork) (g gm : Rng)
    (h : N.compatibleB M = true) :
    (∃ C gc, N.crossover M g = some (C, gc) ∧ sameShape C N) ∧
      sameShape (N.mutate gm).1 N := by
  obtain ⟨h1, h2, h3⟩ := (compatibleB_iff N M).mp h
  constructor
  · refine ⟨⟨N.input_count, N.output_count,
      (crossLayers N.layers M.layers g).1⟩,
      (crossLayers N.layers M.layers g).2, ?_, ?_⟩
    · unfold NeuralNetwork.crossover
      rw [if_pos h]
    · exact ⟨rfl, rfl, crossLayers_sizes N.layers M.layers g h3⟩
  · exact ⟨rfl, rfl, mutateLayers_sizes N.layers gm⟩

theorem crossover_mutate_preserve_shape_witness :
    (∃ C gc,
      (⟨1, 1, [[⟨[0], 0, .Identity⟩]]⟩ : NeuralNetwork).crossover
        ⟨1, 1, [[⟨[5], 1, .Identity⟩]]⟩ rng0 = some (C, gc) ∧
      sameShape C ⟨1, 1, [[⟨[0], 0, .Identity⟩]]⟩) ∧
    sameShape
      ((⟨1, 1, [[⟨[0], 0, .Identity⟩]]⟩ : NeuralNetwork).mutate rng0).1
      ⟨1, 1, [[⟨[0], 0, .Identity⟩]]⟩ :=
  crossover_mutate_preserve_shape _ _ rng0 rng0 (by decide)

/-- C2: crossover on two networks that are not structurally compatible
(differing input count, output count, number of layers, or neuron count in
some layer) fails fast and returns no network. -/
theorem crossover_incompatible_none (N M : NeuralNetwork) (g : Rng)
    (h : ¬(N.input_count = M.input_count ∧ N.output_count = M.output_count ∧
      layerSizes N = layerSizes M)) :
    N.crossover M g = none := by
  unfold NeuralNetwork.crossover
  rw [if_neg]
  intro hc
  exact h ((compatibleB_iff N M).mp hc)

theorem crossover_incompatible_none_witness :
    (⟨0, 2, []⟩ : NeuralNetwork).crossover ⟨0, 3, []⟩ rng0 = none :=
  crossover_incompatible_none _ _ rng0 (by decide)

/-- C3: a network whose single layer holds a single identity-activation output
neuron predicts exactly the bias plus the weighted sum of the inputs. -/
theorem predict_single_identity (ic : ℕ) (ws : List ℝ) (b : ℝ) (v : List ℝ)
    (hw : ws.length = ic) (hv : v.length = ic) :
    NeuralNetwork.predict ⟨ic, 1, [[⟨ws, b, .Identity⟩]]⟩ v =
      some [b + (List.zipWith (fun w x => w * x) ws v).sum] := by
  have hlen : v.length = ws.length := by rw [hv, hw]
  simp [NeuralNetwork.predict, layersActivations, layerActivations,
    NeuralNetworkNeuron.activate, NeuralNetworkActivationFun.apply,
    weightedSum, hv, hw, hlen]

theorem predict_single_identity_witness :
    NeuralNetwork.predict ⟨2, 1, [[⟨[2, -1], 0.5, .Identity⟩]]⟩ [3, 4] =
      some [(2.5 : ℝ)] := by
  rw [predict_single_identity 2 [2, -1] 0.5 [3, 4] (by simp) (by simp)]
  norm_num

/-- C4: predict fails fast on any input vector whose length differs from the
network's input count, and on a network built by `new` it does not fail on any
input vector of length exactly the input count. -/
theorem predict_fail_fast (N : NeuralNetwork) (v : List ℝ) (ic oc : ℕ)
    (sizes : List ℕ) (g : Rng) (w : List ℝ) :
    (v.length ≠ N.input_count → N.predict v = none) ∧
    (w.length = ic →
      ∃ out, ((NeuralNetwork.new ic oc sizes g).1).predict w = some out) := by
  constructor
  · intro h
    unfold NeuralNetwork.predict
    rw [if_neg h]
  · intro h
    have hc : chainOk w.length ((NeuralNetwork.new ic oc sizes g).1).layers := by
      rw [h]; exact new_chainOk ic oc sizes g
    obtain ⟨out, ho, _⟩ := layersActivations_ok _ w hc
    refine ⟨out, ?_⟩
    unfold NeuralNetwork.predict
    rw [if_pos
      (show w.length = ((NeuralNetwork.new ic oc sizes g).1).input_count from h)]
    exact ho

theorem predict_fail_fast_witness :
    ((⟨1, 1, [[⟨[0], 0, .Identity⟩]]⟩ : NeuralNetwork).predict [] = none) ∧
    (∃ out, ((NeuralNetwork.new 1 1 [] rng0).1).predict [0] = some out) := by
  obtain ⟨h1, h2⟩ :=
    predict_fail_fast ⟨1, 1, [[⟨[0], 0, .Identity⟩]]⟩ [] 1 1 [] rng0 [0]
  exact ⟨h1 (by simp), h2 (by simp)⟩

/-- C5: `new` builds one TanH layer per hidden size, each neuron fed by the
previous width starting from the input count, followed by exactly one output
layer of identity neurons of the output count; an empty hidden list yields the
single output layer fed directly by the input. -/
theorem new_structure (ic oc : ℕ) (sizes : List ℕ) (g : Rng) :
    ((NeuralNetwork.new ic oc sizes g).1).input_count = ic ∧
    ((NeuralNetwork.new ic oc sizes g).1).output_count = oc ∧
    networkShape (NeuralNetwork.new ic oc sizes g).1 = specShape ic oc sizes := by
  refine ⟨rfl, rfl, ?_⟩
  have hspec := buildHidden_specShape sizes ic oc g
  unfold NeuralNetwork.new networkShape
  rw [← hspec]
  simp only [List.map_append, List.map_cons, List.map_nil, List.map_replicate]
  congr 2
  simp [neuronShape, neuron_new_weights, neuron_new_activation]

/-- C6: on a network built by `new`, predict applied to an input vector of the
right length returns the result of folding the input through the layers in
order, a vector of length exactly the output count. -/
theorem predict_new_evaluates_layers (ic oc : ℕ) (sizes : List ℕ) (g : Rng)
    (v : List ℝ) (h : v.length = ic) :
    ∃ out, ((NeuralNetwork.new ic oc sizes g).1).predict v = some out ∧
      out.length = oc ∧
      layersActivations ((NeuralNetwork.new ic oc sizes g).1).layers v =
        some out := by
  have hc : chainOk v.length ((NeuralNetwork.new ic oc sizes g).1).layers := by
    rw [h]; exact new_chainOk ic oc sizes g
  obtain ⟨out, ho, hl⟩ := layersActivations_ok _ v hc
  refine ⟨out, ?_, ?_, ho⟩
  · unfold NeuralNetwork.predict
    rw [if_pos
      (show v.length = ((NeuralNetwork.new ic oc sizes g).1).input_count from h)]
    exact ho
  · rw [hl]
    exact new_last_width ic oc sizes g v.length

theorem predict_new_evaluates_layers_witness :
    ∃ out, ((NeuralNetwork.new 1 1 [] rng0).1).predict [0] = some out ∧
      out.length = 1 ∧
      layersActivations ((NeuralNetwork.new 1 1 [] rng0).1).layers [0] =
        some out :=
  predict_new_evaluates_layers 1 1 [] rng0 [0] (by simp)

/-- C7: prediction is deterministic: the embedding of `predict`, faithful to
the source which draws no randomness and takes no random source, is a pure
function of the network and the inputs, so two calls on the same network with
no intervening mutation return identical output vectors. -/
theorem predict_deterministic (N : NeuralNetwork) (v : List ℝ) :
    N.predict v = N.predict v := rfl

/-- C8: a TanH neuron's output on any accepted input lies strictly between -1
and 1, and when its weighted sum is 0 the output is exactly 0. -/
theorem tanh_neuron_output_bounded (n : NeuralNetworkNeuron) (v : List ℝ)
    (y : ℝ) (hact : n.activation = .TanH) (h : n.activate v = some y) :
    (-1 < y ∧ y < 1) ∧ (weightedSum n v = 0 → y = 0) := by
  unfold NeuralNetworkNeuron.activate at h
  split at h
  case isTrue hc =>
    rw [hact] at h
    simp only [NeuralNetworkActivationFun.apply] at h
    have hy : y = Real.tanh (weightedSum n v) := (Option.some.inj h).symm
    subst hy
    exact ⟨⟨neg_one_lt_tanh_real _, tanh_lt_one_real _⟩,
      fun h0 => by rw [h0, Real.tanh_zero]⟩
  case isFalse => exact absurd h (by simp)

theorem tanh_neuron_output_bounded_witness :
    (-1 < Real.tanh (weightedSum ⟨[], 0, .TanH⟩ []) ∧
      Real.tanh (weightedSum ⟨[], 0, .TanH⟩ []) < 1) ∧
    (weightedSum ⟨[], 0, .TanH⟩ [] = 0 →
      Real.tanh (weightedSum ⟨[], 0, .TanH⟩ []) = 0) :=
  tanh_neuron_output_bounded ⟨[], 0, .TanH⟩ [] _ rfl (by
    unfold NeuralNetworkNeuron.activate
    rw [if_pos rfl]
    simp [NeuralNetworkActivationFun.apply])

/-- C9: in a network built by `new`, any two neurons of the same layer are
equal at construction time, because each layer is one freshly constructed
neuron cloned across all its slots. -/
theorem new_layer_neurons_identical (ic oc : ℕ) (sizes : List ℕ) (g : Rng)
    (layer : List NeuralNetworkNeuron)
    (hl : layer ∈ ((NeuralNetwork.new ic oc sizes g).1).layers)
    (a b : NeuralNetworkNeuron) (ha : a ∈ layer) (hb : b ∈ layer) : a = b := by
  have hrep : ∃ k nr, layer = List.replicate k nr := by
    unfold NeuralNetwork.new at hl
    simp only [List.mem_append, List.mem_singleton] at hl
    rcases hl with h | h
    · exact buildHidden_layers_replicate sizes ic g layer h
    · exact ⟨oc, _, h⟩
  obtain ⟨k, nr, rfl⟩ := hrep
  rw [List.eq_of_mem_replicate ha, List.eq_of_mem_replicate hb]

theorem new_layer_neurons_identical_witness :
    (⟨[0], 0, .Identity⟩ : NeuralNetworkNeuron) = ⟨[0], 0, .Identity⟩ :=
  new_layer_neurons_identical 1 1 [] rng0 [⟨[0], 0, .Identity⟩]
    (by simp [NeuralNetwork.new, buildHiddenLayers, NeuralNetworkNeuron.new,
      drawReals, Rng.nextReal, rng0])
    _ _ (by simp) (by simp)

/-- C10: the network-level crossover check tests only the four count
conditions, never per-neuron weight counts or activations: any two networks
agreeing on input count, output count and per-layer neuron counts pass the
check, and crossover returns the network assembled from position-by-position
neuron crossovers. -/
theorem crossover_check_counts_only (N M : NeuralNetwork) (g : Rng)
    (h1 : N.input_count = M.input_count)
    (h2 : N.output_count = M.output_count)
    (h3 : layerSizes N = layerSizes M) :
    N.crossover M g =
      some (⟨N.input_count, N.output_count,
        (crossLayers N.layers M.layers g).1⟩,
        (crossLayers N.layers M.layers g).2) := by
  unfold NeuralNetwork.crossover
  rw [if_pos ((compatibleB_iff N M).mpr ⟨h1, h2, h3⟩)]

theorem crossover_check_counts_only_witness :
    (⟨1, 1, [[⟨[0], 0, .TanH⟩]]⟩ : NeuralNetwork).crossover
      ⟨1, 1, [[⟨[1, 2], 5, .Identity⟩]]⟩ rng0 =
    some (⟨1, 1,
      (crossLayers [[⟨[0], 0, .TanH⟩]] [[⟨[1, 2], 5, .Identity⟩]] rng0).1⟩,
      (crossLayers [[⟨[0], 0, .TanH⟩]] [[⟨[1, 2], 5, .Identity⟩]] rng0).2) :=
  crossover_check_counts_only _ _ rng0 rfl rfl rfl
